import Mathlib

/-!
Verification of the multi-network / multi-wallet token-balance aggregator
of the ChanchisPolvo repository (src/apps/web/Alchemy/alchemyconf.ts and
src/apps/web/Alchemy/useTokenBalances.tsx).

The TypeScript functions are shallowly embedded as total Lean functions.
HTTP is modelled by an explicit environment (`Env`) that maps a request to
its outcome; JavaScript exceptions are modelled by `Except String`; each
embedded function additionally returns the number of network requests it
issues (the `Nat` component), so that claims about "no network I/O" are
statable.  Arbitrary-precision JavaScript BigInt values are modelled by
`Int`; the JavaScript double expression `10 ** decimals` is modelled by
`jsPow10` (exact for `decimals ≤ 22`, nearest binary64 value above that,
and an overflow error from `decimals ≥ 309`, where the double is Infinity
and `BigInt(Infinity)` throws a RangeError).
-/

deriving instance DecidableEq for Except

namespace Alchemy

/-- JavaScript `a || dflt` for an optional string: `undefined`/`null` and
the empty string are falsy and select the default. -/
def jsOr (o : Option String) (dflt : String) : String :=
  match o with
  | none => dflt
  | some v => if v = "" then dflt else v

/-- JavaScript `a || dflt` for an optional number: `undefined`/`null` and
`0` are falsy and select the default. -/
def jsOrNat (o : Option Nat) (dflt : Nat) : Nat :=
  match o with
  | none => dflt
  | some 0 => dflt
  | some v => v

/-- JavaScript `a || null` for an optional string: `undefined`/`null` and
the empty string collapse to `null`. -/
def jsOrNull (o : Option String) : Option String :=
  match o with
  | none => none
  | some v => if v = "" then none else some v

/-- Value of a hexadecimal digit character, using code points: digits are
48-57, lowercase a-f are 97-102, uppercase A-F are 65-70. -/
def hexDigitVal (c : Char) : Option Nat :=
  let n := c.toNat
  if 48 ≤ n ∧ n ≤ 57 then some (n - 48)
  else if 97 ≤ n ∧ n ≤ 102 then some (n - 87)
  else if 65 ≤ n ∧ n ≤ 70 then some (n - 55)
  else none

/-- One character of the character class `[a-fA-F0-9]`. -/
def isHexChar (c : Char) : Bool :=
  (hexDigitVal c).isSome

/-- The wallet-address format check of `getAllTokenBalances`:
the regular expression `^0x[a-fA-F0-9]\x7b40\x7d$`. -/
def isValidAddress (s : String) : Bool :=
  match s.data with
  | '0' :: 'x' :: rest => rest.length == 40 && rest.all isHexChar
  | _ => false

/-- Digit value of a character in the given base, if any. -/
def digitVal (base : Nat) (c : Char) : Option Nat :=
  match hexDigitVal c with
  | none => none
  | some d => if d < base then some d else none

/-- Accumulating digit parser used by `parseBigInt`. -/
def parseNatDigitsAux (base : Nat) : List Char → Nat → Option Nat
  | [], acc => some acc
  | c :: cs, acc =>
    match digitVal base c with
    | none => none
    | some d => parseNatDigitsAux base cs (acc * base + d)

/-- Parse a non-empty digit string in the given base. -/
def parseNatDigits (base : Nat) (cs : List Char) : Option Nat :=
  if cs.isEmpty then none else parseNatDigitsAux base cs 0

/-- The whitespace characters stripped by JavaScript StringToBigInt
(the common ASCII subset; the exotic Unicode space characters never occur
in the JSON payloads this code consumes). -/
def jsWhitespace (c : Char) : Bool :=
  c = ' ' || c = '\t' || c = '\n' || c = '\r' || c = '\x0b' || c = '\x0c'

/-- Strip leading and trailing whitespace from a character list. -/
def trimJs (cs : List Char) : List Char :=
  ((cs.dropWhile jsWhitespace).reverse.dropWhile jsWhitespace).reverse

/-- JavaScript `BigInt(string)` (ES StringToBigInt): whitespace is
trimmed, the empty string is `0n`, `0x`/`0o`/`0b` prefixes select a radix,
otherwise an optionally signed decimal numeral; anything else throws
(`none`). -/
def parseBigInt (s : String) : Option Int :=
  match trimJs s.data with
  | [] => some 0
  | '0' :: x :: rest =>
    if x = 'x' || x = 'X' then (parseNatDigits 16 rest).map Int.ofNat
    else if x = 'o' || x = 'O' then (parseNatDigits 8 rest).map Int.ofNat
    else if x = 'b' || x = 'B' then (parseNatDigits 2 rest).map Int.ofNat
    else (parseNatDigits 10 ('0' :: x :: rest)).map Int.ofNat
  | '+' :: rest => (parseNatDigits 10 rest).map Int.ofNat
  | '-' :: rest => (parseNatDigits 10 rest).map (fun n => -(Int.ofNat n))
  | cs => (parseNatDigits 10 cs).map Int.ofNat

/-- The V8 error message produced when `BigInt(s)` rejects the string `s`. -/
def bigIntErrMsg (s : String) : String :=
  "Cannot convert " ++ s ++ " to a BigInt"

/-- Fuel-driven bit-length helper (structural recursion so that the kernel
can evaluate it; 1100 units of fuel cover every number below `2 ^ 1100`,
far beyond the binary64 range used here). -/
def bitLenAux : Nat → Nat → Nat
  | 0, _ => 0
  | fuel + 1, n => if n = 0 then 0 else bitLenAux fuel (n / 2) + 1

/-- Number of binary digits of a natural number (0 for 0). -/
def bitLen (n : Nat) : Nat := bitLenAux 1100 n

/-- Round a positive integer to the nearest binary64 value
(53 significant bits, ties to even) - the value an IEEE-754 double holds
for it.  Exact whenever the number fits in 53 significant bits. -/
def roundToDouble (v : Nat) : Nat :=
  let k := bitLen v
  if k ≤ 53 then v
  else
    let sh := k - 53
    let q := v / 2 ^ sh
    let r := v % 2 ^ sh
    let half := 2 ^ (sh - 1)
    let q' := if half < r ∨ (r = half ∧ q % 2 = 1) then q + 1 else q
    q' * 2 ^ sh

/-- The JavaScript double expression `10 ** d` as consumed by `BigInt(...)`:
the nearest binary64 value of `10 ^ d` (exact for `d ≤ 22`, an integral but
inexact double for `23 ≤ d ≤ 308`), and `none` for `d ≥ 309`, where the
double overflows to Infinity and `BigInt(Infinity)` throws. -/
def jsPow10 (d : Nat) : Option Nat :=
  if d ≤ 308 then some (roundToDouble (10 ^ d)) else none

/-- JavaScript `s.padStart(n, c)`. -/
def padStartChars (s : String) (n : Nat) (c : Char) : String :=
  if n ≤ s.data.length then s else ⟨List.replicate (n - s.data.length) c ++ s.data⟩

/-- JavaScript `s.slice(0, n)`. -/
def sliceChars (s : String) (n : Nat) : String := ⟨s.data.take n⟩

/-- `formatTokenBalance(balance, decimals)` from alchemyconf.ts:
`BigInt(balance)` (a throw is `.error`), integer division and remainder by
`BigInt(10 ** decimals)`, zero-padding of the remainder to `decimals`
digits, truncation to 6 digits, and assembly as `integer.fraction`. -/
def formatTokenBalance (balance : String) (decimals : Nat) : Except String String :=
  match parseBigInt balance with
  | none => .error (bigIntErrMsg balance)
  | some balanceBigInt =>
    match jsPow10 decimals with
    | none => .error "The number Infinity cannot be converted to a BigInt because it is not an integer"
    | some p =>
      let divisor : Int := Int.ofNat p
      let integerPart := balanceBigInt.tdiv divisor
      let fractionalPart := balanceBigInt.tmod divisor
      let fractionalString := padStartChars (toString fractionalPart) decimals '0'
      let truncatedFractional := sliceChars fractionalString 6
      .ok (toString integerPart ++ "." ++ truncatedFractional)

/-- The formatter as the specification words it: division by the exact
mathematical power `10 ^ decimals` (used to compare the source behaviour
against the spec sentence "divides by 10^decimals in exact integer
arithmetic"). -/
def formatAmount_spec (balance : String) (decimals : Nat) : Option String :=
  (parseBigInt balance).map (fun b =>
    toString (b.tdiv ((10 : Int) ^ decimals)) ++ "." ++
      sliceChars (padStartChars (toString (b.tmod ((10 : Int) ^ decimals))) decimals '0') 6)

/-- One entry of the `ALCHEMY_NETWORKS` registry (alchemyconf.ts). -/
structure NetworkConfig where
  name : String
  url : String
  chainId : Nat
deriving DecidableEq

/-- The `ALCHEMY_NETWORKS` registry: the six supported networks, as an
ordered key-to-configuration table (object keys in insertion order). -/
def ALCHEMY_NETWORKS : List (String × NetworkConfig) := [
  ("base", { name := "Base", url := "https://base-mainnet.g.alchemy.com/v2", chainId := 8453 }),
  ("polygon", { name := "Polygon", url := "https://polygon-mainnet.g.alchemy.com/v2", chainId := 137 }),
  ("celo", { name := "Celo", url := "https://celo-mainnet.g.alchemy.com/v2", chainId := 42220 }),
  ("arbitrum", { name := "Arbitrum", url := "https://arb-mainnet.g.alchemy.com/v2", chainId := 42161 }),
  ("scroll", { name := "Scroll", url := "https://scroll-mainnet.g.alchemy.com/v2", chainId := 534352 }),
  ("monad", { name := "Monad", url := "https://monad-mainnet.g.alchemy.com/v2", chainId := 10143 })]

/-- `Object.keys(ALCHEMY_NETWORKS)`. -/
def networkKeys : List String := ALCHEMY_NETWORKS.map Prod.fst

/-- `TokenMetadata` from alchemyconf.ts. -/
structure TokenMetadata where
  name : String
  symbol : String
  decimals : Nat
  logo : Option String
deriving DecidableEq

/-- `TokenBalance` from alchemyconf.ts.  The `metadata` field is doubly
optional: the outer `Option` is field absence, the inner one is the
TypeScript `null`. -/
structure TokenBalance where
  contractAddress : String
  balance : String
  metadata : Option (Option TokenMetadata) := none
  formattedBalance : Option String := none
deriving DecidableEq

/-- `NetworkBalances` from alchemyconf.ts. -/
structure NetworkBalances where
  network : String
  chainId : Nat
  success : Bool
  error : Option String
  tokens : List TokenBalance
deriving DecidableEq

/-- The `error` field of a JSON-RPC response body. -/
structure RpcError where
  message : Option String
deriving DecidableEq

/-- One entry of `result.tokenBalances` in the provider response; the
`tokenBalance` field may be missing (`undefined`). -/
structure RawTokenBalance where
  contractAddress : String
  tokenBalance : Option String
deriving DecidableEq

/-- The `result` field of an `alchemy_getTokenBalances` response. -/
structure BalancesResult where
  tokenBalances : Option (List RawTokenBalance)
deriving DecidableEq

/-- A parsed `alchemy_getTokenBalances` response body. -/
structure BalancesBody where
  error : Option RpcError
  result : Option BalancesResult
deriving DecidableEq

/-- Outcome of the balances `fetch`: either the promise chain throws
(`reject`, with `isError` recording whether the thrown value is an
`Error` carrying `msg` as its message), or a response arrives with its
`ok` flag, status code, and body (`none` when the body is not JSON, so
that `JSON.parse` throws). -/
inductive FetchOutcome where
  | reject (isError : Bool) (msg : String)
  | response (ok : Bool) (status : Nat) (body : Option BalancesBody)
deriving DecidableEq

/-- The `result` field of an `alchemy_getTokenMetadata` response. -/
structure MetaResult where
  name : Option String
  symbol : Option String
  decimals : Option Nat
  logo : Option String
deriving DecidableEq

/-- A parsed `alchemy_getTokenMetadata` response body. -/
structure MetaBody where
  error : Option RpcError
  result : Option MetaResult
deriving DecidableEq

/-- Outcome of the metadata `fetch`; `body = none` means `response.json()`
throws.  The `ok` flag and status are recorded but the source never reads
them on this path. -/
inductive MetaFetchOutcome where
  | reject (isError : Bool) (msg : String)
  | response (ok : Bool) (status : Nat) (body : Option MetaBody)
deriving DecidableEq

/-- The world the code runs against: the configured API key (the
environment variable, `none` when unset), the clock reading, and the
outcome of every balances/metadata request.  `native` is the actual
native-asset balance each chain holds for an address; the source code
never issues the request that would observe it, which is exactly what the
claims about native entries are checked against. -/
structure Env where
  apiKey : Option String
  now : String
  balances : String → String → FetchOutcome
  metadata : String → String → MetaFetchOutcome
  native : String → String → Nat

/-- `getAlchemyApiKey()`: throws when the environment variable is unset or
empty (both are falsy in `if (!apiKey)`). -/
def getAlchemyApiKey (env : Env) : Except String String :=
  match env.apiKey with
  | none => .error "NEXT_PUBLIC_ALCHEMY_API_KEY no está configurada en las variables de entorno"
  | some k =>
    if k = "" then .error "NEXT_PUBLIC_ALCHEMY_API_KEY no está configurada en las variables de entorno"
    else .ok k

/-- The filter callback pass of `getTokenBalancesForNetwork`:
`tokenBalances.filter(t => BigInt(t.tokenBalance || "0") > 0n)`.  The
first unparseable balance string makes `BigInt` throw, which the outer
try/catch converts into a failed network result (`.error`). -/
def filterPositive : List RawTokenBalance → Except String (List RawTokenBalance)
  | [] => .ok []
  | t :: ts =>
    match parseBigInt (jsOr t.tokenBalance "0") with
    | none => .error (bigIntErrMsg (jsOr t.tokenBalance "0"))
    | some v =>
      match filterPositive ts with
      | .error e => .error e
      | .ok rest => .ok (if 0 < v then t :: rest else rest)

/-- The map pass of `getTokenBalancesForNetwork`: each surviving entry is
re-parsed with `BigInt(t.tokenBalance)` (no `|| "0"` fallback here) and
rendered as a decimal string; a missing or unparseable balance would
throw. -/
def mapBalances : List RawTokenBalance → Except String (List TokenBalance)
  | [] => .ok []
  | t :: ts =>
    match t.tokenBalance with
    | none => .error "Cannot convert undefined to a BigInt"
    | some s =>
      match parseBigInt s with
      | none => .error (bigIntErrMsg s)
      | some v =>
        match mapBalances ts with
        | .error e => .error e
        | .ok rest => .ok ({ contractAddress := t.contractAddress, balance := toString v } :: rest)

/-- The failed-network result shape used by every recovery branch of
`getTokenBalancesForNetwork`. -/
def failNB (net : NetworkConfig) (msg : String) : NetworkBalances :=
  { network := net.name, chainId := net.chainId, success := false, error := some msg, tokens := [] }

/-- The body of the try/catch of `getTokenBalancesForNetwork`, as a pure
function of the fetch outcome: non-ok status, non-JSON body, JSON-RPC
error field, and any throw (transport failure or a `BigInt` throw from the
filter/map passes) all produce a failed result; otherwise the positive
entries of `result.tokenBalances` (defaulting to `[]`) are returned. -/
def processNetworkOutcome (net : NetworkConfig) (outcome : FetchOutcome) : NetworkBalances :=
  match outcome with
  | .reject isErr msg => failNB net (if isErr then msg else "Error de conexión")
  | .response ok status body =>
    if !ok then failNB net ("HTTP " ++ toString status ++ ": Red no disponible o API key sin acceso")
    else
      match body with
      | none => failNB net "API key no tiene acceso a esta red"
      | some d =>
        match d.error with
        | some e => failNB net (jsOr e.message "Error de la API")
        | none =>
          let raw := (d.result.bind BalancesResult.tokenBalances).getD []
          match filterPositive raw with
          | .error m => failNB net m
          | .ok kept =>
            match mapBalances kept with
            | .error m => failNB net m
            | .ok toks =>
              { network := net.name, chainId := net.chainId, success := true,
                error := none, tokens := toks }

/-- `getTokenBalancesForNetwork(walletAddress, networkKey)`: throws
(`.error`) for an unregistered network or a missing API key, both before
any request; otherwise issues exactly one request and returns its
processed outcome.  The `Nat` component counts issued requests. -/
def getTokenBalancesForNetwork (walletAddress networkKey : String) (env : Env) :
    Except String NetworkBalances × Nat :=
  match List.lookup networkKey ALCHEMY_NETWORKS with
  | none => (.error ("Red no soportada: " ++ networkKey), 0)
  | some net =>
    match getAlchemyApiKey env with
    | .error e => (.error e, 0)
    | .ok _ => (.ok (processNetworkOutcome net (env.balances walletAddress networkKey)), 1)

/-- The try/catch body of `getTokenMetadata` as a pure function of the
fetch outcome: a throw or a JSON-RPC error field yields `null`; otherwise
the metadata object is assembled with the falsy-field defaults
(`Unknown`, `UNKNOWN`, 18 decimals, `null` logo). -/
def processMetaOutcome : MetaFetchOutcome → Option TokenMetadata
  | .reject _ _ => none
  | .response _ _ none => none
  | .response _ _ (some d) =>
    match d.error with
    | some _ => none
    | none =>
      some { name := jsOr (d.result.bind MetaResult.name) "Unknown",
             symbol := jsOr (d.result.bind MetaResult.symbol) "UNKNOWN",
             decimals := jsOrNat (d.result.bind MetaResult.decimals) 18,
             logo := jsOrNull (d.result.bind MetaResult.logo) }

/-- `getTokenMetadata(contractAddress, networkKey)`: throws for an
unregistered network or missing API key; otherwise issues one request and
never throws past it. -/
def getTokenMetadata (contractAddress networkKey : String) (env : Env) :
    Except String (Option TokenMetadata) × Nat :=
  match List.lookup networkKey ALCHEMY_NETWORKS with
  | none => (.error ("Red no soportada: " ++ networkKey), 0)
  | some _net =>
    match getAlchemyApiKey env with
    | .error e => (.error e, 0)
    | .ok _ => (.ok (processMetaOutcome (env.metadata contractAddress networkKey)), 1)

/-- `Promise.all` rejection: the first rejected promise of the batch
(creation order; every rejection here is raised at promise-creation time,
so array order is rejection order). -/
def firstErr {α : Type} : List (Except String α) → Option String
  | [] => none
  | .error e :: _ => some e
  | .ok _ :: rest => firstErr rest

/-- The fulfilled values of a batch (meaningful when `firstErr` is `none`). -/
def getOks {α : Type} : List (Except String α) → List α
  | [] => []
  | .error _ :: rest => getOks rest
  | .ok a :: rest => a :: getOks rest

/-- The `summary` record of `TokenBalancesResult`. -/
structure ScanSummary where
  totalNetworks : Nat
  successfulNetworks : Nat
  totalTokensFound : Nat
deriving DecidableEq

/-- `TokenBalancesResult` from alchemyconf.ts; the `balances` record is an
ordered key-to-result table. -/
structure TokenBalancesResult where
  walletAddress : String
  timestamp : String
  summary : ScanSummary
  balances : List (String × NetworkBalances)
deriving DecidableEq

/-- `getAllTokenBalances(walletAddress)`: rejects an empty or malformed
address before any request; otherwise queries every registered network in
parallel (`Promise.all`), zips the results back onto the keys, and
computes the summary from the result array. -/
def getAllTokenBalances (walletAddress : String) (env : Env) :
    Except String TokenBalancesResult × Nat :=
  if walletAddress = "" then (.error "Se requiere una dirección de wallet", 0)
  else if !(isValidAddress walletAddress) then (.error "Formato de dirección de wallet inválido", 0)
  else
    let rawResults := networkKeys.map (fun k => getTokenBalancesForNetwork walletAddress k env)
    let calls := (rawResults.map Prod.snd).sum
    match firstErr (rawResults.map Prod.fst) with
    | some e => (.error e, calls)
    | none =>
      let results := getOks (rawResults.map Prod.fst)
      (.ok { walletAddress := walletAddress,
             timestamp := env.now,
             summary := { totalNetworks := networkKeys.length,
                          successfulNetworks := (results.filter (fun r => r.success)).length,
                          totalTokensFound := (results.map (fun r => r.tokens.length)).sum },
             balances := networkKeys.zip results }, calls)

/-- The per-token merge step of `getAllTokenBalancesWithMetadata`: each
token is paired with its metadata lookup result; a non-null metadata with
truthy `decimals` triggers `formatTokenBalance` (whose throw aborts the
whole scan), otherwise the raw balance string is used as the formatted
balance. -/
def zipEnrich : List TokenBalance → List (Option TokenMetadata) → Except String (List TokenBalance)
  | [], _ => .ok []
  | t :: ts, [] =>
    match zipEnrich ts [] with
    | .error e => .error e
    | .ok rest => .ok ({ t with metadata := some none, formattedBalance := some t.balance } :: rest)
  | t :: ts, md :: mds =>
    match md with
    | none =>
      match zipEnrich ts mds with
      | .error e => .error e
      | .ok rest => .ok ({ t with metadata := some none, formattedBalance := some t.balance } :: rest)
    | some m =>
      if m.decimals ≠ 0 then
        match formatTokenBalance t.balance m.decimals with
        | .error e => .error e
        | .ok s =>
          match zipEnrich ts mds with
          | .error e => .error e
          | .ok rest => .ok ({ t with metadata := some (some m), formattedBalance := some s } :: rest)
      else
        match zipEnrich ts mds with
        | .error e => .error e
        | .ok rest => .ok ({ t with metadata := some (some m), formattedBalance := some t.balance } :: rest)

/-- One loop iteration of `getAllTokenBalancesWithMetadata`: a successful
network with at least one token issues one metadata request per token
(all created before the `Promise.all` await, so all are counted even if a
later step throws) and merges the results; other networks pass through
untouched. -/
def enrichNetwork (networkKey : String) (env : Env) (nb : NetworkBalances) :
    Except String NetworkBalances × Nat :=
  if nb.success && decide (0 < nb.tokens.length) then
    let lookups := nb.tokens.map (fun t => getTokenMetadata t.contractAddress networkKey env)
    let calls := (lookups.map Prod.snd).sum
    match firstErr (lookups.map Prod.fst) with
    | some e => (.error e, calls)
    | none =>
      let mds := getOks (lookups.map Prod.fst)
      match zipEnrich nb.tokens mds with
      | .error e => (.error e, calls)
      | .ok toks => (.ok { nb with tokens := toks }, calls)
  else (.ok nb, 0)

/-- The sequential `for ... of` enrichment loop: networks are processed in
table order and a throw aborts the remaining iterations. -/
def enrichAll : List (String × NetworkBalances) → Env →
    Except String (List (String × NetworkBalances)) × Nat
  | [], _ => (.ok [], 0)
  | (k, nb) :: rest, env =>
    match enrichNetwork k env nb with
    | (.error e, m) => (.error e, m)
    | (.ok nb', m) =>
      match enrichAll rest env with
      | (.error e, m') => (.error e, m + m')
      | (.ok rest', m') => (.ok ((k, nb') :: rest'), m + m')

/-- `getAllTokenBalancesWithMetadata(walletAddress)`: the basic scan
followed by the in-place enrichment loop; the summary is not recomputed. -/
def getAllTokenBalancesWithMetadata (walletAddress : String) (env : Env) :
    Except String TokenBalancesResult × Nat :=
  match getAllTokenBalances walletAddress env with
  | (.error e, n) => (.error e, n)
  | (.ok basic, n) =>
    match enrichAll basic.balances env with
    | (.error e, m) => (.error e, n + m)
    | (.ok newBalances, m) => (.ok { basic with balances := newBalances }, n + m)

/-- A wallet entry passed to `searchAllWallets`. -/
structure WalletWithLabel where
  address : String
  label : String
deriving DecidableEq

/-- `MultiWalletBalancesResult` from useTokenBalances.tsx. -/
structure MultiWalletBalancesResult where
  walletAddress : String
  label : String
  result : Option TokenBalancesResult
  error : Option String
deriving DecidableEq

/-- The state held by `useMultiWalletTokenBalances`. -/
structure HookState where
  allBalances : List MultiWalletBalancesResult
  isLoading : Bool
deriving DecidableEq

/-- The initial hook state: `useState([])` and `useState(false)`. -/
def initialHookState : HookState := { allBalances := [], isLoading := false }

/-- The per-wallet body of the `Promise.all` in `searchAllWallets`: the
scan outcome of one wallet, with its own try/catch converting any throw
into the `error` field.  Depends only on that wallet (and the shared
environment and `includeMetadata` flag). -/
def scanWalletEntry (includeMetadata : Bool) (env : Env) (w : WalletWithLabel) :
    MultiWalletBalancesResult × Nat :=
  match (if includeMetadata then getAllTokenBalancesWithMetadata w.address env
         else getAllTokenBalances w.address env) with
  | (.ok r, n) =>
    ({ walletAddress := w.address, label := w.label, result := some r, error := none }, n)
  | (.error e, n) =>
    ({ walletAddress := w.address, label := w.label, result := none, error := some e }, n)

/-- `searchAllWallets(wallets)` as a state transformer: an empty list
returns early, leaving the hook state untouched and issuing no request;
otherwise every wallet is scanned and the state is replaced by the new
result list with `isLoading` reset by the `finally`. -/
def searchAllWallets (wallets : List WalletWithLabel) (includeMetadata : Bool) (env : Env)
    (st : HookState) : HookState × Nat :=
  if wallets.length = 0 then (st, 0)
  else
    let entries := wallets.map (scanWalletEntry includeMetadata env)
    ({ allBalances := entries.map Prod.fst, isLoading := false },
     (entries.map Prod.snd).sum)

/-- The `summary` object computed by `useMultiWalletTokenBalances` from
the current `allBalances` state. -/
structure MultiSummary where
  totalWallets : Nat
  totalTokens : Nat
  successfulWallets : Nat
deriving DecidableEq

/-- The summary derivation of `useMultiWalletTokenBalances`. -/
def multiWalletSummary (l : List MultiWalletBalancesResult) : MultiSummary :=
  { totalWallets := l.length,
    totalTokens := (l.map (fun wb => match wb.result with
      | some r => r.summary.totalTokensFound
      | none => 0)).sum,
    successfulWallets := (l.filter (fun wb => wb.result.isSome)).length }

/-! Concrete environments and expected values used by the witnesses and
counterexamples below. -/

/-- A well-formed wallet address. -/
def addrW : String := "0x1234567890abcdef1234567890abcdef12345678"

/-- A balances response holding one positive and one zero ERC-20 entry. -/
def bodyW : BalancesBody :=
  { error := none,
    result := some { tokenBalances := some [
      { contractAddress := "0xaaa", tokenBalance := some "0x05" },
      { contractAddress := "0xbbb", tokenBalance := some "0x00" }] } }

/-- A metadata response for the positive entry. -/
def metaBodyW : MetaBody :=
  { error := none,
    result := some { name := some "Alpha", symbol := some "ALP",
                     decimals := some 6, logo := none } }

/-- Concrete world: the base network answers with `bodyW` and serves
metadata for `0xaaa`; every other request fails in transport. -/
def envW : Env :=
  { apiKey := some "testkey",
    now := "T",
    balances := fun _ k =>
      if k = "base" then .response true 200 (some bodyW) else .reject true "network down",
    metadata := fun c k =>
      if k = "base" && c = "0xaaa" then .response true 200 (some metaBodyW)
      else .reject true "x",
    native := fun _ _ => 0 }

/-- The un-enriched token entry the base network yields under `envW`. -/
def tokPlainW : TokenBalance := { contractAddress := "0xaaa", balance := "5" }

/-- The un-enriched base network result under `envW`. -/
def nbPlainW : NetworkBalances :=
  { network := "Base", chainId := 8453, success := true, error := none, tokens := [tokPlainW] }

/-- The metadata object served for `0xaaa` under `envW`. -/
def metaW : TokenMetadata :=
  { name := "Alpha", symbol := "ALP", decimals := 6, logo := none }

/-- The enriched token entry the base network yields under `envW`. -/
def tokW : TokenBalance :=
  { contractAddress := "0xaaa", balance := "5",
    metadata := some (some metaW),
    formattedBalance := some "0.000005" }

/-- The enriched base network result under `envW`. -/
def nbW : NetworkBalances :=
  { network := "Base", chainId := 8453, success := true, error := none, tokens := [tokW] }

/-- A failed network result carrying the transport message of `envW`. -/
def nbDown (name : String) (cid : Nat) : NetworkBalances :=
  { network := name, chainId := cid, success := false, error := some "network down", tokens := [] }

/-- The full metadata-enriched scan result under `envW`. -/
def resW : TokenBalancesResult :=
  { walletAddress := addrW,
    timestamp := "T",
    summary := { totalNetworks := 6, successfulNetworks := 1, totalTokensFound := 1 },
    balances := [
      ("base", nbW),
      ("polygon", nbDown "Polygon" 137),
      ("celo", nbDown "Celo" 42220),
      ("arbitrum", nbDown "Arbitrum" 42161),
      ("scroll", nbDown "Scroll" 534352),
      ("monad", nbDown "Monad" 10143)] }

/-- World for the C1 counterexample: every chain reports a strictly
positive native balance, while the ERC-20 balances request answers with an
empty token list. -/
def envC1 : Env :=
  { apiKey := some "testkey",
    now := "T",
    balances := fun _ _ =>
      .response true 200 (some { error := none, result := some { tokenBalances := some [] } }),
    metadata := fun _ _ => .reject true "x",
    native := fun _ _ => 1 }

/-- World for the C4 counterexample: like `envW`, but every metadata
lookup answers with a JSON-RPC error, so `getTokenMetadata` yields null. -/
def envC4 : Env :=
  { envW with metadata := fun _ _ =>
      .response true 200 (some { error := some { message := some "boom" }, result := none }) }

/-- The token the C4 world produces: formatted balance present, metadata
null. -/
def tokC4 : TokenBalance :=
  { contractAddress := "0xaaa", balance := "5", metadata := some none,
    formattedBalance := some "5" }

/-- The base network result in the C4 world. -/
def nbC4 : NetworkBalances :=
  { network := "Base", chainId := 8453, success := true, error := none, tokens := [tokC4] }

/-- The full enriched scan result in the C4 world. -/
def resC4 : TokenBalancesResult :=
  { walletAddress := addrW,
    timestamp := "T",
    summary := { totalNetworks := 6, successfulNetworks := 1, totalTokensFound := 1 },
    balances := [
      ("base", nbC4),
      ("polygon", nbDown "Polygon" 137),
      ("celo", nbDown "Celo" 42220),
      ("arbitrum", nbDown "Arbitrum" 42161),
      ("scroll", nbDown "Scroll" 534352),
      ("monad", nbDown "Monad" 10143)] }

/-- World for the C7 counterexample: the fetch rejects with an `Error`
whose message is the empty string. -/
def envC7 : Env :=
  { apiKey := some "testkey",
    now := "T",
    balances := fun _ _ => .reject true "",
    metadata := fun _ _ => .reject true "",
    native := fun _ _ => 0 }

/-- The hook state left by a completed one-wallet scan under `envW`
(used to show the empty-input scan does not clear previous results). -/
def stPrior : HookState :=
  (searchAllWallets [{ address := addrW, label := "w1" }] true envW initialHookState).1

/-! Helper lemmas. -/

/-- A string whose character list is a cons is not empty, even after
appending. -/
lemma cons_append_ne_empty (a b : String) (c : Char) (l : List Char)
    (ha : a.data = c :: l) : a ++ b ≠ "" := by
  intro he
  have hd := congrArg String.data he
  rw [String.data_append, ha] at hd
  exact List.cons_ne_nil c (l ++ b.data) hd

/-- The V8 BigInt conversion message is never empty. -/
lemma bigIntErrMsg_ne_empty (s : String) : bigIntErrMsg s ≠ "" := by
  have ha : ("Cannot convert " ++ s).data = 'C' :: ("annot convert ".data ++ s.data) := by
    rw [String.data_append]; rfl
  exact cons_append_ne_empty ("Cannot convert " ++ s) " to a BigInt" _ _ ha

/-- The HTTP failure message is never empty. -/
lemma httpMsg_ne_empty (st : Nat) :
    ("HTTP " ++ toString st ++ ": Red no disponible o API key sin acceso") ≠ "" := by
  have ha : ("HTTP " ++ toString st).data = 'H' :: ("TTP ".data ++ (toString st).data) := by
    rw [String.data_append]; rfl
  exact cons_append_ne_empty ("HTTP " ++ toString st) _ _ _ ha

/-- `jsOr` never returns the empty string when its default is not empty. -/
lemma jsOr_ne_empty (o : Option String) (d : String) (hd : d ≠ "") : jsOr o d ≠ "" := by
  cases o with
  | none => exact hd
  | some v =>
    by_cases hv : v = "" <;> simp [jsOr, hv, hd]

/-- `jsOrNat` never returns zero when its default is not zero. -/
lemma jsOrNat_ne_zero (o : Option Nat) (d : Nat) (hd : d ≠ 0) : jsOrNat o d ≠ 0 := by
  cases o with
  | none => exact hd
  | some v => cases v with
    | zero => exact hd
    | succ n => simp [jsOrNat]

/-- Every error produced by the filter pass is a BigInt conversion
message. -/
lemma filterPositive_err {l : List RawTokenBalance} {m : String}
    (h : filterPositive l = .error m) : ∃ s, m = bigIntErrMsg s := by
  induction l with
  | nil => simp [filterPositive] at h
  | cons t ts ih =>
    rw [filterPositive] at h
    split at h
    · exact ⟨_, ((Except.error.injEq _ _).mp h).symm⟩
    · split at h
      · rename_i e heq
        cases (Except.error.injEq _ _).mp h
        exact ih heq
      · simp at h

/-- Every error produced by the map pass is a BigInt conversion message
(the `undefined` one or a string one). -/
lemma mapBalances_err {l : List RawTokenBalance} {m : String}
    (h : mapBalances l = .error m) :
    m = "Cannot convert undefined to a BigInt" ∨ ∃ s, m = bigIntErrMsg s := by
  induction l with
  | nil => simp [mapBalances] at h
  | cons t ts ih =>
    rw [mapBalances] at h
    split at h
    · exact Or.inl ((Except.error.injEq _ _).mp h).symm
    · rename_i s hts
      split at h
      · exact Or.inr ⟨s, ((Except.error.injEq _ _).mp h).symm⟩
      · split at h
        · rename_i e heq
          cases (Except.error.injEq _ _).mp h
          exact ih heq
        · simp at h

/-- Every entry that survives the filter pass comes from the input list
and carries a parseable, strictly positive balance string. -/
lemma filterPositive_ok {l kept : List RawTokenBalance}
    (h : filterPositive l = .ok kept) :
    ∀ t ∈ kept, t ∈ l ∧ ∃ v, parseBigInt (jsOr t.tokenBalance "0") = some v ∧ 0 < v := by
  induction l generalizing kept with
  | nil =>
    simp [filterPositive] at h
    subst h; intro t ht; cases ht
  | cons x xs ih =>
    rw [filterPositive] at h
    split at h
    · cases h
    · rename_i v hv
      split at h
      · cases h
      · rename_i rest hrest
        have hsub := ih hrest
        cases (Except.ok.injEq _ _).mp h
        intro t ht
        by_cases hvp : 0 < v
        · rw [if_pos hvp] at ht
          cases ht with
          | head => exact ⟨List.mem_cons_self x xs, v, hv, hvp⟩
          | tail _ hmem =>
            obtain ⟨hm, hp⟩ := hsub t hmem
            exact ⟨List.mem_cons_of_mem x hm, hp⟩
        · rw [if_neg hvp] at ht
          obtain ⟨hm, hp⟩ := hsub t ht
          exact ⟨List.mem_cons_of_mem x hm, hp⟩

/-- Every token the map pass produces copies the contract address of a
source entry, renders a strictly positive parsed value as its decimal
balance, and carries neither metadata nor a formatted balance - provided
every source entry satisfies the filter-pass positivity property. -/
lemma mapBalances_ok {kept : List RawTokenBalance} {toks : List TokenBalance}
    (h : mapBalances kept = .ok toks)
    (hpos : ∀ t ∈ kept, ∃ v, parseBigInt (jsOr t.tokenBalance "0") = some v ∧ 0 < v) :
    ∀ tb ∈ toks, tb.metadata = none ∧ tb.formattedBalance = none ∧
      (∃ v : Int, 0 < v ∧ tb.balance = toString v) ∧
      ∃ t ∈ kept, tb.contractAddress = t.contractAddress := by
  induction kept generalizing toks with
  | nil =>
    simp [mapBalances] at h
    subst h; intro tb htb; cases htb
  | cons x xs ih =>
    rw [mapBalances] at h
    split at h
    · cases h
    · rename_i s hs
      split at h
      · cases h
      · rename_i v hv
        split at h
        · cases h
        · rename_i rest hrest
          cases (Except.ok.injEq _ _).mp h
          intro tb htb
          cases htb with
          | head =>
            refine ⟨rfl, rfl, ⟨v, ?_, rfl⟩, x, List.mem_cons_self x xs, rfl⟩
            obtain ⟨v', hv', hvp'⟩ := hpos x (List.mem_cons_self x xs)
            have hne : s ≠ "" := by
              intro hse
              rw [hs, hse] at hv'
              simp [jsOr, parseBigInt, trimJs, jsWhitespace, parseNatDigits,
                parseNatDigitsAux, digitVal, hexDigitVal] at hv'
              omega
            rw [hs] at hv'
            simp [jsOr, hne] at hv'
            rw [hv] at hv'
            cases hv'
            exact hvp'
          | tail _ hmem =>
            have := ih hrest (fun t ht => hpos t (List.mem_cons_of_mem x ht)) tb hmem
            obtain ⟨h1, h2, h3, t, ht, h4⟩ := this
            exact ⟨h1, h2, h3, t, List.mem_cons_of_mem x ht, h4⟩

/-- The per-outcome invariant of the processed network result: success
carries no error message; failure carries an empty token list and an
error message that can only be empty when a thrown transport `Error`
itself had an empty message. -/
lemma processNetworkOutcome_inv (net : NetworkConfig) (o : FetchOutcome) :
    ((processNetworkOutcome net o).success = true → (processNetworkOutcome net o).error = none) ∧
    ((processNetworkOutcome net o).success = false → (processNetworkOutcome net o).tokens = [] ∧
      ∃ m, (processNetworkOutcome net o).error = some m ∧ (m = "" → o = .reject true "")) := by
  cases o with
  | reject isErr msg =>
    cases isErr with
    | true =>
      refine ⟨by simp [processNetworkOutcome, failNB], fun _ => ⟨rfl, msg, rfl, fun hm => ?_⟩⟩
      rw [hm]
    | false =>
      refine ⟨by simp [processNetworkOutcome, failNB], fun _ => ⟨rfl, _, rfl, fun hm => ?_⟩⟩
      simp at hm
  | response ok st body =>
    cases ok with
    | false =>
      refine ⟨by simp [processNetworkOutcome, failNB], fun _ => ⟨rfl, _, rfl, fun hm => ?_⟩⟩
      exact absurd hm (httpMsg_ne_empty st)
    | true =>
      cases body with
      | none =>
        refine ⟨by simp [processNetworkOutcome, failNB], fun _ => ⟨rfl, _, rfl, fun hm => ?_⟩⟩
        simp at hm
      | some d =>
        cases hde : d.error with
        | some e =>
          have hred : processNetworkOutcome net (.response true st (some d)) =
              failNB net (jsOr e.message "Error de la API") := by
            simp [processNetworkOutcome, hde]
          rw [hred]
          exact ⟨by simp [failNB], fun _ => ⟨rfl, _, rfl, fun hm =>
            absurd hm (jsOr_ne_empty e.message "Error de la API" (by decide))⟩⟩
        | none =>
          cases hf : filterPositive ((d.result.bind BalancesResult.tokenBalances).getD []) with
          | error m =>
            have hred : processNetworkOutcome net (.response true st (some d)) =
                failNB net m := by
              simp [processNetworkOutcome, hde, hf]
            rw [hred]
            refine ⟨by simp [failNB], fun _ => ⟨rfl, m, rfl, fun hm => ?_⟩⟩
            obtain ⟨s, hsm⟩ := filterPositive_err hf
            exact absurd hm (hsm ▸ bigIntErrMsg_ne_empty s)
          | ok kept =>
            cases hmp : mapBalances kept with
            | error m =>
              have hred : processNetworkOutcome net (.response true st (some d)) =
                  failNB net m := by
                simp [processNetworkOutcome, hde, hf, hmp]
              rw [hred]
              refine ⟨by simp [failNB], fun _ => ⟨rfl, m, rfl, fun hm => ?_⟩⟩
              cases mapBalances_err hmp with
              | inl h1 => rw [h1] at hm; simp at hm
              | inr h2 =>
                obtain ⟨s, hsm⟩ := h2
                exact absurd hm (hsm ▸ bigIntErrMsg_ne_empty s)
            | ok toks =>
              have hred : processNetworkOutcome net (.response true st (some d)) =
                  { network := net.name, chainId := net.chainId, success := true,
                    error := none, tokens := toks } := by
                simp [processNetworkOutcome, hde, hf, hmp]
              rw [hred]
              exact ⟨fun _ => rfl, by simp⟩

/-- Inversion for a successfully returned network result: the call found
the network in the registry, the API key was configured, and the result
is the processed fetch outcome. -/
lemma getTokenBalancesForNetwork_ok_inv {env : Env} {w k : String} {r : NetworkBalances}
    (h : (getTokenBalancesForNetwork w k env).1 = .ok r) :
    ∃ net, List.lookup k ALCHEMY_NETWORKS = some net ∧
      r = processNetworkOutcome net (env.balances w k) := by
  rw [getTokenBalancesForNetwork] at h
  split at h
  · cases h
  · rename_i net hnet
    split at h
    · cases h
    · exact ⟨net, hnet, ((Except.ok.injEq _ _).mp h).symm⟩

/-- Inversion for a successful processed outcome: the fetch delivered an
ok JSON response without a JSON-RPC error, and the token list is the
filtered and mapped `result.tokenBalances`. -/
lemma process_success_inv {net : NetworkConfig} {o : FetchOutcome}
    (h : (processNetworkOutcome net o).success = true) :
    ∃ st d kept, o = .response true st (some d) ∧ d.error = none ∧
      filterPositive ((d.result.bind BalancesResult.tokenBalances).getD []) = .ok kept ∧
      mapBalances kept = .ok (processNetworkOutcome net o).tokens := by
  cases o with
  | reject isErr msg => simp [processNetworkOutcome, failNB] at h
  | response ok st body =>
    cases ok with
    | false => simp [processNetworkOutcome, failNB] at h
    | true =>
      cases body with
      | none => simp [processNetworkOutcome, failNB] at h
      | some d =>
        cases hde : d.error with
        | some e => simp [processNetworkOutcome, failNB, hde] at h
        | none =>
          cases hf : filterPositive ((d.result.bind BalancesResult.tokenBalances).getD []) with
          | error m =>
            have hred : processNetworkOutcome net (.response true st (some d)) =
                failNB net m := by
              simp [processNetworkOutcome, hde, hf]
            rw [hred] at h; simp [failNB] at h
          | ok kept =>
            cases hmp : mapBalances kept with
            | error m =>
              have hred : processNetworkOutcome net (.response true st (some d)) =
                  failNB net m := by
                simp [processNetworkOutcome, hde, hf, hmp]
              rw [hred] at h; simp [failNB] at h
            | ok toks =>
              have hred : processNetworkOutcome net (.response true st (some d)) =
                  { network := net.name, chainId := net.chainId, success := true,
                    error := none, tokens := toks } := by
                simp [processNetworkOutcome, hde, hf, hmp]
              rw [hred]
              exact ⟨st, d, kept, rfl, hde, hf, by rw [hmp]⟩

/-- `Promise.all` never rejects when every promise fulfills. -/
lemma firstErr_none {α : Type} {l : List (Except String α)}
    (h : ∀ x ∈ l, ∃ a, x = .ok a) : firstErr l = none := by
  induction l with
  | nil => rfl
  | cons x xs ih =>
    obtain ⟨a, ha⟩ := h x (List.mem_cons_self x xs)
    subst ha
    rw [firstErr]
    exact ih (fun y hy => h y (List.mem_cons_of_mem _ hy))

/-- Every fulfilled value gathered by `getOks` comes from the batch. -/
lemma getOks_mem {α : Type} {l : List (Except String α)} {a : α}
    (h : a ∈ getOks l) : Except.ok a ∈ l := by
  induction l with
  | nil => cases h
  | cons x xs ih =>
    cases x with
    | error e =>
      rw [getOks] at h
      exact List.mem_cons_of_mem _ (ih h)
    | ok b =>
      rw [getOks] at h
      cases h with
      | head => exact List.mem_cons_self _ _
      | tail _ hm => exact List.mem_cons_of_mem _ (ih hm)

/-- When every promise fulfills, `getOks` preserves the batch length. -/
lemma getOks_length {α : Type} {l : List (Except String α)}
    (h : ∀ x ∈ l, ∃ a, x = .ok a) : (getOks l).length = l.length := by
  induction l with
  | nil => rfl
  | cons x xs ih =>
    obtain ⟨a, ha⟩ := h x (List.mem_cons_self x xs)
    subst ha
    rw [getOks, List.length_cons, List.length_cons,
      ih (fun y hy => h y (List.mem_cons_of_mem _ hy))]

/-- Zipping the keys with the gathered values pairs every key with its
own fulfilled result. -/
lemma zip_getOks {α β : Type} (g : α → Except String β) (ks : List α)
    (h : ∀ k ∈ ks, ∃ a, g k = .ok a) :
    ∀ p ∈ ks.zip (getOks (ks.map g)), g p.1 = .ok p.2 := by
  induction ks with
  | nil => intro p hp; cases hp
  | cons k ks ih =>
    obtain ⟨a, ha⟩ := h k (List.mem_cons_self k ks)
    intro p hp
    rw [List.map_cons, ha, getOks, List.zip_cons_cons] at hp
    cases hp with
    | head => exact ha
    | tail _ hm => exact ih (fun y hy => h y (List.mem_cons_of_mem _ hy)) p hm

/-! Claim theorems. -/

/-- C7 (amended): every result a network fetch returns satisfies: on
success there is no error message; on failure the token list is empty and
an error message is present, and that message can only be empty when the
transport threw an `Error` whose own message was empty (the code forwards
`error.message` verbatim). -/
theorem network_result_invariant (env : Env) (w k : String) (r : NetworkBalances)
    (h : (getTokenBalancesForNetwork w k env).1 = .ok r) :
    (r.success = true → r.error = none) ∧
    (r.success = false → r.tokens = [] ∧
      ∃ m, r.error = some m ∧ (m = "" → env.balances w k = .reject true "")) := by
  obtain ⟨net, hnet, hr⟩ := getTokenBalancesForNetwork_ok_inv h
  subst hr
  exact processNetworkOutcome_inv net (env.balances w k)

/-- C7 counterexample: when the fetch rejects with an `Error` carrying an
empty message, the returned failed result carries `some ""` - an error
message that is present but empty, contradicting the claim that failed
results always carry a non-empty error message. -/
theorem empty_error_message_cex :
    (getTokenBalancesForNetwork addrW "base" envC7).1 =
      .ok { network := "Base", chainId := 8453, success := false,
            error := some "", tokens := [] } := by
  decide

/-- Witness for `network_result_invariant` at concrete inputs. -/
theorem network_result_invariant_witness :
    nbPlainW.error = none ∧ (nbDown "Polygon" 137).tokens = [] := by
  constructor
  · exact (network_result_invariant envW addrW "base" nbPlainW (by decide)).1 rfl
  · exact ((network_result_invariant envW addrW "polygon" (nbDown "Polygon" 137)
      (by decide)).2 rfl).1

/-- C2: with the network registered and the API key configured, the fetch
never throws - it returns a result normally for every outcome, and any
transport rejection, non-ok HTTP status, non-JSON body, or JSON-RPC error
field yields success = false with an error message present and an empty
token list. -/
theorem fetch_never_throws (env : Env) (w k : String) (net : NetworkConfig) (key : String)
    (hnet : List.lookup k ALCHEMY_NETWORKS = some net)
    (hkey : env.apiKey = some key) (hkey2 : key ≠ "") :
    (∃ r, (getTokenBalancesForNetwork w k env).1 = .ok r) ∧
    ∀ r, (getTokenBalancesForNetwork w k env).1 = .ok r →
      ((∃ iE m, env.balances w k = .reject iE m) ∨
       (∃ st b, env.balances w k = .response false st b) ∨
       (∃ st, env.balances w k = .response true st none) ∨
       (∃ st d e, env.balances w k = .response true st (some d) ∧ d.error = some e)) →
      r.success = false ∧ r.error.isSome ∧ r.tokens = [] := by
  constructor
  · refine ⟨processNetworkOutcome net (env.balances w k), ?_⟩
    rw [getTokenBalancesForNetwork, hnet]
    simp [getAlchemyApiKey, hkey, hkey2]
  · intro r hr hcase
    obtain ⟨net', _, hreq⟩ := getTokenBalancesForNetwork_ok_inv hr
    subst hreq
    rcases hcase with ⟨iE, m, ho⟩ | ⟨st, b, ho⟩ | ⟨st, ho⟩ | ⟨st, d, e, ho, hde⟩
    · rw [ho]; simp [processNetworkOutcome, failNB]
    · rw [ho]; simp [processNetworkOutcome, failNB]
    · rw [ho]; simp [processNetworkOutcome, failNB]
    · rw [ho]; simp [processNetworkOutcome, failNB, hde]

/-- Witness for `fetch_never_throws` at concrete inputs. -/
theorem fetch_never_throws_witness :
    ∃ r, (getTokenBalancesForNetwork addrW "polygon" envW).1 = .ok r ∧
      r.success = false ∧ r.error.isSome ∧ r.tokens = [] := by
  have h := fetch_never_throws envW addrW "polygon" _ "testkey" rfl rfl (by decide)
  obtain ⟨r, hr⟩ := h.1
  exact ⟨r, hr, h.2 r hr (Or.inl ⟨true, "network down", by decide⟩)⟩

/-- C8: every token entry in a successful network result renders a
strictly positive arbitrary-precision integer; zero-balance entries are
filtered out before being exposed. -/
theorem tokens_strictly_positive (env : Env) (w k : String) (r : NetworkBalances)
    (h : (getTokenBalancesForNetwork w k env).1 = .ok r) (hs : r.success = true) :
    ∀ t ∈ r.tokens, ∃ v : Int, 0 < v ∧ t.balance = toString v := by
  obtain ⟨net, hnet, hr⟩ := getTokenBalancesForNetwork_ok_inv h
  subst hr
  obtain ⟨st, d, kept, ho, hde, hf, hmp⟩ := process_success_inv hs
  intro t ht
  exact (mapBalances_ok hmp (fun x hx => (filterPositive_ok hf x hx).2) t ht).2.2.1

/-- Witness for `tokens_strictly_positive` at concrete inputs. -/
theorem tokens_strictly_positive_witness :
    ∃ v : Int, 0 < v ∧ tokPlainW.balance = toString v := by
  exact tokens_strictly_positive envW addrW "base" nbPlainW (by decide) rfl
    tokPlainW (by decide)

/-- C1 counterexample: in a world where the chain holds a strictly
positive native balance, a successful fetch with no ERC-20 balances
returns an empty token list - no native-asset entry is placed first (or
anywhere), because the code never issues a native-balance request and the
registry holds no nativeAsset descriptor. -/
theorem native_balance_ignored_cex :
    0 < envC1.native addrW "base" ∧
    (getTokenBalancesForNetwork addrW "base" envC1).1 =
      .ok { network := "Base", chainId := 8453, success := true,
            error := none, tokens := [] } := by
  exact ⟨by decide, by decide⟩

/-- C1 (amended): the fetch result is entirely independent of the chain's
native balance, and on success every returned token entry carries neither
metadata nor a formatted balance and copies its contract address from the
ERC-20 entries of the provider response - no native entry is
synthesized. -/
theorem no_native_entry_synthesized (env : Env) (w k : String) (r : NetworkBalances)
    (h : (getTokenBalancesForNetwork w k env).1 = .ok r) :
    (∀ f, getTokenBalancesForNetwork w k { env with native := f } =
        getTokenBalancesForNetwork w k env) ∧
    (r.success = true → ∀ t ∈ r.tokens, t.metadata = none ∧ t.formattedBalance = none ∧
      ∃ st d, env.balances w k = .response true st (some d) ∧
        t.contractAddress ∈
          ((d.result.bind BalancesResult.tokenBalances).getD []).map
            RawTokenBalance.contractAddress) := by
  constructor
  · intro f; cases env; rfl
  · intro hs t ht
    obtain ⟨net, hnet, hr⟩ := getTokenBalancesForNetwork_ok_inv h
    subst hr
    obtain ⟨st, d, kept, ho, hde, hf, hmp⟩ := process_success_inv hs
    obtain ⟨hm, hfb, _, tr, htr, hca⟩ :=
      mapBalances_ok hmp (fun x hx => (filterPositive_ok hf x hx).2) t ht
    refine ⟨hm, hfb, st, d, ho, ?_⟩
    rw [hca]
    exact List.mem_map_of_mem RawTokenBalance.contractAddress (filterPositive_ok hf tr htr).1

/-- Witness for `no_native_entry_synthesized` at concrete inputs. -/
theorem no_native_entry_synthesized_witness :
    getTokenBalancesForNetwork addrW "base" { envW with native := fun _ _ => 999 } =
      getTokenBalancesForNetwork addrW "base" envW ∧
    tokPlainW.metadata = none := by
  have h := no_native_entry_synthesized envW addrW "base" nbPlainW (by decide)
  exact ⟨h.1 (fun _ _ => 999), (h.2 rfl tokPlainW (by decide)).1⟩

/-- A batch with no rejection consists of fulfilled promises only. -/
lemma all_ok_of_firstErr_none {α : Type} {l : List (Except String α)}
    (h : firstErr l = none) : ∀ x ∈ l, ∃ a, x = .ok a := by
  induction l with
  | nil => intro x hx; cases hx
  | cons x xs ih =>
    cases x with
    | error e => rw [firstErr] at h; cases h
    | ok a =>
      rw [firstErr] at h
      intro y hy
      cases hy with
      | head => exact ⟨a, rfl⟩
      | tail _ hm => exact ih h y hm

/-- Every registered key resolves in the registry and, with the API key
configured, its fetch fulfills. -/
lemma registryFetch_ok (env : Env) (w : String) (key : String)
    (hkey : env.apiKey = some key) (hkey2 : key ≠ "") :
    ∀ k ∈ networkKeys, ∃ nb, (getTokenBalancesForNetwork w k env).1 = .ok nb := by
  intro k hk
  have hsome : (List.lookup k ALCHEMY_NETWORKS).isSome := by
    fin_cases hk <;> decide
  cases hl : List.lookup k ALCHEMY_NETWORKS with
  | none => rw [hl] at hsome; cases hsome
  | some net =>
    refine ⟨processNetworkOutcome net (env.balances w k), ?_⟩
    rw [getTokenBalancesForNetwork, hl]
    simp [getAlchemyApiKey, hkey, hkey2]

/-- C3: for a well-formed wallet address (and a configured API key), the
aggregate scan returns a result whose per-network table is keyed exactly
by the registry keys in order, and whose summary counts the registered
networks, the successful results, and the total token entries across all
networks. -/
theorem scan_summary_invariants (env : Env) (w : String) (key : String)
    (hw : isValidAddress w = true)
    (hkey : env.apiKey = some key) (hkey2 : key ≠ "") :
    ∃ r, (getAllTokenBalances w env).1 = .ok r ∧
      r.balances.map Prod.fst = networkKeys ∧
      r.summary.totalNetworks = networkKeys.length ∧
      r.summary.successfulNetworks =
        ((r.balances.map Prod.snd).filter (fun nb => nb.success)).length ∧
      r.summary.totalTokensFound =
        ((r.balances.map Prod.snd).map (fun nb => nb.tokens.length)).sum := by
  have hne : w ≠ "" := by
    intro he; rw [he] at hw; exact absurd hw (by decide)
  have hok := registryFetch_ok env w key hkey hkey2
  have hall : ∀ x ∈ (networkKeys.map
      (fun k => getTokenBalancesForNetwork w k env)).map Prod.fst, ∃ a, x = .ok a := by
    intro x hx
    rw [List.map_map] at hx
    obtain ⟨k, hk, rfl⟩ := List.mem_map.mp hx
    exact hok k hk
  have hfe := firstErr_none hall
  have hlen : (getOks ((networkKeys.map
      (fun k => getTokenBalancesForNetwork w k env)).map Prod.fst)).length =
      networkKeys.length := by
    rw [getOks_length hall, List.length_map, List.length_map]
  rw [getAllTokenBalances, if_neg hne]
  simp only [hw, Bool.not_true, Bool.false_eq_true, if_false, hfe]
  refine ⟨_, rfl, ?_, rfl, ?_, ?_⟩
  · exact List.map_fst_zip _ _ (le_of_eq hlen.symm)
  · rw [List.map_snd_zip _ _ (le_of_eq hlen)]
  · rw [List.map_snd_zip _ _ (le_of_eq hlen)]

/-- Witness for `scan_summary_invariants` at concrete inputs. -/
theorem scan_summary_invariants_witness :
    ∃ r, (getAllTokenBalances addrW envW).1 = .ok r ∧
      r.balances.map Prod.fst = networkKeys ∧
      r.summary.totalNetworks = networkKeys.length ∧
      r.summary.successfulNetworks =
        ((r.balances.map Prod.snd).filter (fun nb => nb.success)).length ∧
      r.summary.totalTokensFound =
        ((r.balances.map Prod.snd).map (fun nb => nb.tokens.length)).sum := by
  exact scan_summary_invariants envW addrW "testkey" (by decide) rfl (by decide)

/-- A metadata object returned by `getTokenMetadata` never carries zero
decimals: the falsy-default `|| 18` maps 0 (and a missing value) to 18. -/
lemma getTokenMetadata_decimals {env : Env} {c k : String} {m : TokenMetadata}
    (h : (getTokenMetadata c k env).1 = .ok (some m)) : m.decimals ≠ 0 := by
  rw [getTokenMetadata] at h
  split at h
  · cases h
  · split at h
    · cases h
    · have hm := (Except.ok.injEq _ _).mp h
      cases ho : env.metadata c k with
      | reject iE msg => rw [ho] at hm; simp [processMetaOutcome] at hm
      | response ok st body =>
        cases body with
        | none => rw [ho] at hm; simp [processMetaOutcome] at hm
        | some d =>
          cases hde : d.error with
          | some e => rw [ho] at hm; simp [processMetaOutcome, hde] at hm
          | none =>
            rw [ho] at hm
            simp only [processMetaOutcome, hde, Option.some.injEq] at hm
            rw [← hm]
            exact jsOrNat_ne_zero _ 18 (by decide)

/-- Property of every token produced by the per-token enrichment pass:
the metadata field is set, a null metadata leaves the raw balance as the
formatted balance, and a non-null metadata (which, coming from
`getTokenMetadata`, has non-zero decimals) yields the formatter output. -/
lemma zipEnrich_props {ts : List TokenBalance} {mds : List (Option TokenMetadata)}
    {out : List TokenBalance} (h : zipEnrich ts mds = .ok out)
    (hmd : ∀ md ∈ mds, ∀ m, md = some m → m.decimals ≠ 0) :
    ∀ t ∈ out, ∃ md, t.metadata = some md ∧
      (md = none → t.formattedBalance = some t.balance) ∧
      (∀ m, md = some m → ∃ s, t.formattedBalance = some s ∧
        formatTokenBalance t.balance m.decimals = .ok s) := by
  induction ts generalizing mds out with
  | nil =>
    simp only [zipEnrich] at h
    cases (Except.ok.injEq _ _).mp h
    intro t ht; cases ht
  | cons x xs ih =>
    cases mds with
    | nil =>
      simp only [zipEnrich] at h
      split at h
      · cases h
      · rename_i rest hrest
        cases (Except.ok.injEq _ _).mp h
        intro t ht
        cases ht with
        | head =>
          exact ⟨none, rfl, fun _ => rfl, fun m hm => by cases hm⟩
        | tail _ hm =>
          exact ih hrest (fun md hmem => by cases hmem) t hm
    | cons md mds' =>
      have hmd' : ∀ y ∈ mds', ∀ m, y = some m → m.decimals ≠ 0 :=
        fun y hy => hmd y (List.mem_cons_of_mem _ hy)
      cases md with
      | none =>
        simp only [zipEnrich] at h
        split at h
        · cases h
        · rename_i rest hrest
          cases (Except.ok.injEq _ _).mp h
          intro t ht
          cases ht with
          | head => exact ⟨none, rfl, fun _ => rfl, fun m hm => by cases hm⟩
          | tail _ hm => exact ih hrest hmd' t hm
      | some m =>
        have hdec : m.decimals ≠ 0 :=
          hmd (some m) (List.mem_cons_self _ _) m rfl
        simp only [zipEnrich] at h
        rw [if_pos hdec] at h
        split at h
        · cases h
        · rename_i s hfmt
          split at h
          · cases h
          · rename_i rest hrest
            cases (Except.ok.injEq _ _).mp h
            intro t ht
            cases ht with
            | head =>
              refine ⟨some m, rfl, fun hc => Option.noConfusion hc, fun m' hm' => ?_⟩
              cases (Option.some.injEq _ _).mp hm'
              exact ⟨s, rfl, hfmt⟩
            | tail _ hm => exact ih hrest hmd' t hm

/-- Property of every token in an enriched network result, given that a
failed input network carries no tokens. -/
lemma enrichNetwork_props {k : String} {env : Env} {nb nb' : NetworkBalances} {n : Nat}
    (h : enrichNetwork k env nb = (.ok nb', n))
    (hempty : nb.success = false → nb.tokens = []) :
    ∀ t ∈ nb'.tokens, ∃ md, t.metadata = some md ∧
      (md = none → t.formattedBalance = some t.balance) ∧
      (∀ m, md = some m → ∃ s, t.formattedBalance = some s ∧
        formatTokenBalance t.balance m.decimals = .ok s) := by
  by_cases hcond : (nb.success && decide (0 < nb.tokens.length)) = true
  · cases hfe : firstErr ((nb.tokens.map
        (fun t => getTokenMetadata t.contractAddress k env)).map Prod.fst) with
    | some e =>
      have hred : enrichNetwork k env nb = (.error e, ((nb.tokens.map
          (fun t => getTokenMetadata t.contractAddress k env)).map Prod.snd).sum) := by
        rw [enrichNetwork, if_pos hcond]
        dsimp only
        rw [hfe]
      rw [hred] at h
      cases ((Prod.mk.injEq _ _ _ _).mp h).1
    | none =>
      cases hze : zipEnrich nb.tokens (getOks ((nb.tokens.map
          (fun t => getTokenMetadata t.contractAddress k env)).map Prod.fst)) with
      | error e =>
        have hred : enrichNetwork k env nb = (.error e, ((nb.tokens.map
            (fun t => getTokenMetadata t.contractAddress k env)).map Prod.snd).sum) := by
          rw [enrichNetwork, if_pos hcond]
          dsimp only
          rw [hfe, hze]
        rw [hred] at h
        cases ((Prod.mk.injEq _ _ _ _).mp h).1
      | ok toks =>
        have hred : enrichNetwork k env nb = (.ok { nb with tokens := toks },
            ((nb.tokens.map
              (fun t => getTokenMetadata t.contractAddress k env)).map Prod.snd).sum) := by
          rw [enrichNetwork, if_pos hcond]
          dsimp only
          rw [hfe, hze]
        rw [hred] at h
        obtain ⟨h1, _⟩ := (Prod.mk.injEq _ _ _ _).mp h
        cases (Except.ok.injEq _ _).mp h1
        intro t ht
        have hmd : ∀ md ∈ getOks ((nb.tokens.map
            (fun t => getTokenMetadata t.contractAddress k env)).map Prod.fst),
            ∀ m, md = some m → m.decimals ≠ 0 := by
          intro md hmem m hm
          subst hm
          have hin := getOks_mem hmem
          rw [List.map_map] at hin
          obtain ⟨t0, _, ht0⟩ := List.mem_map.mp hin
          exact getTokenMetadata_decimals ht0
        exact zipEnrich_props hze hmd t ht
  · have hred : enrichNetwork k env nb = (.ok nb, 0) := by
      simp only [enrichNetwork, hcond, Bool.false_eq_true, if_false]
    rw [hred] at h
    obtain ⟨h1, _⟩ := (Prod.mk.injEq _ _ _ _).mp h
    cases (Except.ok.injEq _ _).mp h1
    intro t ht
    rw [Bool.and_eq_true, decide_eq_true_eq] at hcond
    push_neg at hcond
    cases hs : nb.success with
    | false => rw [hempty hs] at ht; cases ht
    | true =>
      have hlen := hcond (by rw [hs])
      have hnil : nb.tokens = [] := List.length_eq_zero.mp (by omega)
      rw [hnil] at ht; cases ht

/-- Every entry of an enriched table comes from enriching the entry of
the same key in the input table. -/
lemma enrichAll_mem {ps out : List (String × NetworkBalances)} {env : Env} {n : Nat}
    (h : enrichAll ps env = (.ok out, n)) :
    ∀ q ∈ out, ∃ p ∈ ps, q.1 = p.1 ∧ ∃ m, enrichNetwork p.1 env p.2 = (.ok q.2, m) := by
  induction ps generalizing out n with
  | nil =>
    rw [enrichAll] at h
    cases (Prod.mk.injEq _ _ _ _).mp h |>.1 |> (Except.ok.injEq _ _).mp
    intro q hq; cases hq
  | cons p ps ih =>
    obtain ⟨k, nb⟩ := p
    rw [enrichAll] at h
    split at h
    · rename_i m heq
      cases (Prod.mk.injEq _ _ _ _).mp h |>.1
    · rename_i nb' m heq
      split at h
      · rename_i e m' heq2
        cases (Prod.mk.injEq _ _ _ _).mp h |>.1
      · rename_i rest' m' heq2
        obtain ⟨h1, _⟩ := (Prod.mk.injEq _ _ _ _).mp h
        cases (Except.ok.injEq _ _).mp h1
        intro q hq
        cases hq with
        | head =>
          exact ⟨(k, nb), List.mem_cons_self _ _, rfl, m, heq⟩
        | tail _ hm =>
          obtain ⟨p', hp', hfst, m'', hen⟩ := ih heq2 q hm
          exact ⟨p', List.mem_cons_of_mem _ hp', hfst, m'', hen⟩

/-- Reduction of the aggregate scan when the validations pass and no
network promise rejects. -/
lemma getAllTokenBalances_ok_red {env : Env} {w : String}
    (hne : ¬ w = "") (hv : isValidAddress w = true)
    (hfe : firstErr ((networkKeys.map
      (fun k => getTokenBalancesForNetwork w k env)).map Prod.fst) = none) :
    getAllTokenBalances w env =
      (.ok { walletAddress := w, timestamp := env.now,
             summary := { totalNetworks := networkKeys.length,
                          successfulNetworks := ((getOks ((networkKeys.map
                            (fun k => getTokenBalancesForNetwork w k env)).map
                              Prod.fst)).filter (fun r => r.success)).length,
                          totalTokensFound := ((getOks ((networkKeys.map
                            (fun k => getTokenBalancesForNetwork w k env)).map
                              Prod.fst)).map (fun r => r.tokens.length)).sum },
             balances := networkKeys.zip (getOks ((networkKeys.map
               (fun k => getTokenBalancesForNetwork w k env)).map Prod.fst)) },
       ((networkKeys.map
         (fun k => getTokenBalancesForNetwork w k env)).map Prod.snd).sum) := by
  rw [getAllTokenBalances, if_neg hne, if_neg (by simp [hv])]
  dsimp only
  rw [hfe]

/-- Every entry of the aggregate per-network table is the fulfilled fetch
result of its own key. -/
lemma getAllTokenBalances_balances {env : Env} {w : String} {basic : TokenBalancesResult}
    (h : (getAllTokenBalances w env).1 = .ok basic) :
    ∀ p ∈ basic.balances, (getTokenBalancesForNetwork w p.1 env).1 = .ok p.2 := by
  by_cases hw0 : w = ""
  · have hred : getAllTokenBalances w env = (.error "Se requiere una dirección de wallet", 0) := by
      simp [getAllTokenBalances, hw0]
    rw [hred] at h; cases h
  · by_cases hv : isValidAddress w = true
    · cases hfe : firstErr ((networkKeys.map
          (fun k => getTokenBalancesForNetwork w k env)).map Prod.fst) with
      | some e =>
        have hred : getAllTokenBalances w env = (.error e, ((networkKeys.map
            (fun k => getTokenBalancesForNetwork w k env)).map Prod.snd).sum) := by
          rw [getAllTokenBalances, if_neg hw0, if_neg (by simp [hv])]
          dsimp only
          rw [hfe]
        rw [hred] at h; cases h
      | none =>
        rw [getAllTokenBalances_ok_red hw0 hv hfe] at h
        cases (Except.ok.injEq _ _).mp h
        have hall := all_ok_of_firstErr_none hfe
        have harg : (networkKeys.map (fun k => getTokenBalancesForNetwork w k env)).map
            Prod.fst = networkKeys.map (fun k => (getTokenBalancesForNetwork w k env).1) := by
          rw [List.map_map]; rfl
        intro p hp
        have hok : ∀ k ∈ networkKeys,
            ∃ a, (getTokenBalancesForNetwork w k env).1 = .ok a := by
          intro k hk
          apply hall
          rw [harg]
          exact List.mem_map_of_mem _ hk
        have := zip_getOks (fun k => (getTokenBalancesForNetwork w k env).1) networkKeys hok p
        rw [← harg] at this
        exact this hp
    · have hred : getAllTokenBalances w env =
          (.error "Formato de dirección de wallet inválido", 0) := by
        simp [getAllTokenBalances, hw0, hv]
      rw [hred] at h; cases h

/-- C4 (amended): in a metadata-enriched scan result every token has its
metadata field set; when the metadata is non-null the formatted balance
is exactly the formatter applied to the raw balance and the metadata
decimals, but when the metadata lookup failed (null metadata) the
formatted balance is still present and equals the raw balance string
verbatim. -/
theorem formattedBalance_consistency (env : Env) (w : String) (res : TokenBalancesResult)
    (h : (getAllTokenBalancesWithMetadata w env).1 = .ok res) :
    ∀ p ∈ res.balances, ∀ t ∈ p.2.tokens, ∃ md, t.metadata = some md ∧
      (md = none → t.formattedBalance = some t.balance) ∧
      (∀ m, md = some m → ∃ s, t.formattedBalance = some s ∧
        formatTokenBalance t.balance m.decimals = .ok s) := by
  rw [getAllTokenBalancesWithMetadata] at h
  split at h
  · cases h
  · rename_i basic n heq1
    split at h
    · cases h
    · rename_i newBalances m heq2
      cases (Except.ok.injEq _ _).mp h
      intro p hp t ht
      obtain ⟨q, hq, hfst, m', hen⟩ := enrichAll_mem heq2 p hp
      have hfetch : (getTokenBalancesForNetwork w q.1 env).1 = .ok q.2 :=
        getAllTokenBalances_balances (by rw [heq1]) q hq
      have hempty : q.2.success = false → q.2.tokens = [] := by
        intro hfalse
        obtain ⟨net, hnet, hre⟩ := getTokenBalancesForNetwork_ok_inv hfetch
        rw [hre] at hfalse ⊢
        exact ((processNetworkOutcome_inv net (env.balances w q.1)).2 hfalse).1
      exact enrichNetwork_props hen hempty t ht

/-- C4 counterexample: when the metadata lookup fails, the enriched scan
still sets a formatted balance - the raw balance string - on a token
whose metadata is null, so the formatted balance is not derived from any
metadata decimals (no formatter output under any decimals equals the
plain digit string, which contains no decimal point). -/
theorem formatted_without_metadata_cex :
    (getAllTokenBalancesWithMetadata addrW envC4).1 = .ok resC4 ∧
    tokC4.formattedBalance = some "5" ∧ tokC4.metadata = some none ∧
    ¬ ∃ m, tokC4.metadata = some (some m) ∧
      formatTokenBalance tokC4.balance m.decimals = .ok "5" := by
  refine ⟨by decide, rfl, rfl, ?_⟩
  rintro ⟨m, hm, _⟩
  cases hm

/-- Witness for `formattedBalance_consistency` at concrete inputs. -/
theorem formattedBalance_consistency_witness :
    ∃ s, tokW.formattedBalance = some s ∧
      formatTokenBalance tokW.balance metaW.decimals = .ok s := by
  have h := formattedBalance_consistency envW addrW resW (by decide)
    ("base", nbW) (by decide) tokW (by decide)
  obtain ⟨md, hmd, _, hsome⟩ := h
  have hmdW : md = some metaW := by
    have h2 : tokW.metadata = some (some metaW) := rfl
    rw [h2] at hmd
    exact ((Option.some.injEq _ _).mp hmd).symm
  exact hsome metaW hmdW

/-- C5 counterexample: after a completed one-wallet scan, calling the
multi-wallet scan with an empty list leaves the previous state (one
stored wallet result, summary totalWallets = 1) fully in place instead of
returning an empty result set with an all-zero summary. -/
theorem empty_scan_keeps_state_cex :
    searchAllWallets [] true envW stPrior = (stPrior, 0) ∧
    stPrior.allBalances.length = 1 ∧
    (multiWalletSummary stPrior.allBalances).totalWallets = 1 ∧
    (multiWalletSummary stPrior.allBalances).successfulWallets = 1 := by
  exact ⟨rfl, by decide, by decide, by decide⟩

/-- C5 (amended): the empty-input multi-wallet scan is a pure no-op - it
issues zero network requests, raises nothing, and leaves the hook state
exactly unchanged (so the stored results read as the empty result set
with an all-zero summary only from the initial hook state). -/
theorem empty_scan_noop (includeMetadata : Bool) (env : Env) (st : HookState) :
    searchAllWallets [] includeMetadata env st = (st, 0) ∧
    multiWalletSummary initialHookState.allBalances =
      { totalWallets := 0, totalTokens := 0, successfulWallets := 0 } := by
  exact ⟨rfl, rfl⟩

/-- The per-wallet scan entry of an invalid wallet: the error field is
set, the result field is absent, and no network request was issued. -/
lemma scanWalletEntry_invalid {env : Env} {b : Bool} {w : WalletWithLabel}
    (hinv : isValidAddress w.address = false) :
    (scanWalletEntry b env w).1.result = none ∧
    (scanWalletEntry b env w).1.error.isSome = true ∧
    (scanWalletEntry b env w).1.walletAddress = w.address ∧
    (scanWalletEntry b env w).2 = 0 := by
  by_cases ha : w.address = ""
  · cases b <;>
      simp [scanWalletEntry, getAllTokenBalances, getAllTokenBalancesWithMetadata, ha]
  · cases b <;>
      simp [scanWalletEntry, getAllTokenBalances, getAllTokenBalancesWithMetadata, ha, hinv]

/-- C6: a malformed wallet address makes the single-wallet scan throw
before any network request (zero requests issued, in both scan variants);
in the multi-wallet scan each position of the output depends only on its
own wallet, a malformed wallet yields an entry with the error field set
and no result, and a single malformed wallet gives
summary.successfulWallets = 0. -/
theorem invalid_address_isolated (env : Env) (b : Bool) (st : HookState) :
    (∀ a : String, isValidAddress a = false →
      (getAllTokenBalances a env).1.isOk = false ∧ (getAllTokenBalances a env).2 = 0 ∧
      (getAllTokenBalancesWithMetadata a env).1.isOk = false ∧
      (getAllTokenBalancesWithMetadata a env).2 = 0) ∧
    (∀ (ws : List WalletWithLabel) (i : Nat) (w : WalletWithLabel), ws[i]? = some w →
      (searchAllWallets ws b env st).1.allBalances[i]? = some (scanWalletEntry b env w).1) ∧
    (∀ (ws : List WalletWithLabel) (i : Nat) (w : WalletWithLabel), ws[i]? = some w →
      isValidAddress w.address = false →
      ∃ entry, (searchAllWallets ws b env st).1.allBalances[i]? = some entry ∧
        entry.error.isSome = true ∧ entry.result = none ∧
        entry.walletAddress = w.address) ∧
    (∀ w : WalletWithLabel, isValidAddress w.address = false →
      (multiWalletSummary ((searchAllWallets [w] b env st).1.allBalances)).successfulWallets
        = 0 ∧
      (multiWalletSummary ((searchAllWallets [w] b env st).1.allBalances)).totalWallets
        = 1) := by
  have hidx : ∀ (ws : List WalletWithLabel) (i : Nat) (w : WalletWithLabel),
      ws[i]? = some w →
      (searchAllWallets ws b env st).1.allBalances[i]? =
        some (scanWalletEntry b env w).1 := by
    intro ws i w hwi
    cases ws with
    | nil => simp at hwi
    | cons x xs =>
      rw [searchAllWallets, if_neg (by simp)]
      dsimp only
      rw [List.getElem?_map, List.getElem?_map, hwi]
      rfl
  refine ⟨?_, hidx, ?_, ?_⟩
  · intro a hinv
    by_cases ha : a = ""
    · simp [getAllTokenBalances, getAllTokenBalancesWithMetadata, ha, Except.isOk,
        Except.toBool]
    · simp [getAllTokenBalances, getAllTokenBalancesWithMetadata, ha, hinv, Except.isOk,
        Except.toBool]
  · intro ws i w hwi hinv
    obtain ⟨h1, h2, h3, _⟩ := @scanWalletEntry_invalid env b _ hinv
    exact ⟨(scanWalletEntry b env w).1, hidx ws i w hwi, h2, h1, h3⟩
  · intro w hinv
    obtain ⟨h1, _, _, _⟩ := @scanWalletEntry_invalid env b _ hinv
    rw [searchAllWallets, if_neg (by simp)]
    dsimp only
    constructor
    · simp [multiWalletSummary, h1]
    · simp [multiWalletSummary]

/-- Witness for `invalid_address_isolated` at concrete inputs. -/
theorem invalid_address_isolated_witness :
    (getAllTokenBalances "bad" envW).2 = 0 ∧
    (multiWalletSummary ((searchAllWallets [{ address := "bad", label := "X" }] true envW
      initialHookState).1.allBalances)).successfulWallets = 0 := by
  have h := invalid_address_isolated envW true initialHookState
  exact ⟨(h.1 "bad" (by decide)).2.1,
    (h.2.2.2 { address := "bad", label := "X" } (by decide)).1⟩

/-- The JavaScript double `10 ** d` is exactly `10 ^ d` for `d ≤ 22`. -/
lemma jsPow10_exact {d : Nat} (hd : d ≤ 22) : jsPow10 d = some (10 ^ d) := by
  interval_cases d <;> decide

/-- C9 (amended): the three example evaluations hold, and for every
balance string parsing to `b` and every `decimals ≤ 22` (the range where
the JavaScript double `10 ** decimals` is exact) the formatter divides by
`10 ^ decimals` exactly, zero-pads the remainder to `decimals` digits and
truncates the fraction to 6 digits.  (For `decimals ≥ 23` the divisor is
the nearest binary64 value of `10 ^ decimals`, which is not `10 ^
decimals` - see the counterexample.) -/
theorem formatter_characterization :
    formatTokenBalance "1000000000000000000" 18 = .ok "1.000000" ∧
    formatTokenBalance "1234560" 6 = .ok "1.234560" ∧
    formatTokenBalance "500" 3 = .ok "0.500" ∧
    ∀ (s : String) (b : Int) (d : Nat), parseBigInt s = some b → d ≤ 22 →
      formatTokenBalance s d = .ok (toString (b.tdiv ((10 : Int) ^ d)) ++ "." ++
        sliceChars (padStartChars (toString (b.tmod ((10 : Int) ^ d))) d '0') 6) := by
  refine ⟨by decide, by decide, by decide, ?_⟩
  intro s b d hp hd
  rw [formatTokenBalance, hp, jsPow10_exact hd]
  dsimp only
  have hpow : (Int.ofNat (10 ^ d)) = (10 : Int) ^ d := by exact_mod_cast rfl
  rw [hpow]

/-- C9 counterexample: at 23 decimals the code divides by
`BigInt(10 ** 23)`, the nearest binary64 value 99999999999999991611392
rather than `10 ^ 23` (no binary64 value equals `10 ^ 23`, whose mantissa
needs 54 bits), and for the balance 99999999999999995000000 this yields
"1.000000" where exact division by `10 ^ 23` yields "0.999999". -/
theorem pow10_double_rounding_cex :
    jsPow10 23 = some 99999999999999991611392 ∧
    formatTokenBalance "99999999999999995000000" 23 = .ok "1.000000" ∧
    formatAmount_spec "99999999999999995000000" 23 = some "0.999999" ∧
    ("1.000000" : String) ≠ "0.999999" := by
  exact ⟨by decide, by decide, by decide, by decide⟩

/-- Witness for `formatter_characterization` at a concrete input. -/
theorem formatter_characterization_witness :
    formatTokenBalance "98765" 4 = .ok "9.8765" := by
  have h := formatter_characterization.2.2.2 "98765" 98765 4 (by decide) (by decide)
  rw [h]
  decide

/-- C10: with the network registered and the API key configured, the
metadata lookup returns null on a thrown fetch, a non-JSON body, or a
JSON-RPC error field, and otherwise returns a metadata object with the
defaults Unknown / UNKNOWN / 18 decimals / null logo substituted for
missing fields - in particular a missing, null or zero decimals value
becomes 18. -/
theorem metadata_defaults (env : Env) (c k : String) (net : NetworkConfig) (key : String)
    (hnet : List.lookup k ALCHEMY_NETWORKS = some net)
    (hkey : env.apiKey = some key) (hkey2 : key ≠ "") :
    (∀ iE m, env.metadata c k = .reject iE m → (getTokenMetadata c k env).1 = .ok none) ∧
    (∀ ok st, env.metadata c k = .response ok st none →
      (getTokenMetadata c k env).1 = .ok none) ∧
    (∀ ok st d e, env.metadata c k = .response ok st (some d) → d.error = some e →
      (getTokenMetadata c k env).1 = .ok none) ∧
    (∀ ok st d, env.metadata c k = .response ok st (some d) → d.error = none →
      ∃ md, (getTokenMetadata c k env).1 = .ok (some md) ∧
        (d.result.bind MetaResult.name = none → md.name = "Unknown") ∧
        (d.result.bind MetaResult.symbol = none → md.symbol = "UNKNOWN") ∧
        ((d.result.bind MetaResult.decimals = none ∨
          d.result.bind MetaResult.decimals = some 0) → md.decimals = 18) ∧
        (d.result.bind MetaResult.logo = none → md.logo = none)) := by
  have hred : getTokenMetadata c k env =
      (.ok (processMetaOutcome (env.metadata c k)), 1) := by
    rw [getTokenMetadata, hnet]
    simp [getAlchemyApiKey, hkey, hkey2]
  refine ⟨?_, ?_, ?_, ?_⟩
  · intro iE m ho
    rw [hred, ho]
    rfl
  · intro ok st ho
    rw [hred, ho]
    rfl
  · intro ok st d e ho hde
    rw [hred, ho]
    simp [processMetaOutcome, hde]
  · intro ok st d ho hde
    refine ⟨{ name := jsOr (d.result.bind MetaResult.name) "Unknown",
              symbol := jsOr (d.result.bind MetaResult.symbol) "UNKNOWN",
              decimals := jsOrNat (d.result.bind MetaResult.decimals) 18,
              logo := jsOrNull (d.result.bind MetaResult.logo) }, ?_, ?_, ?_, ?_, ?_⟩
    · rw [hred, ho]
      simp [processMetaOutcome, hde]
    · intro hn; rw [hn]; rfl
    · intro hn; rw [hn]; rfl
    · intro hn
      cases hn with
      | inl h1 => rw [h1]; rfl
      | inr h2 => rw [h2]; rfl
    · intro hn; rw [hn]; rfl

/-- Witness for `metadata_defaults` at concrete inputs. -/
theorem metadata_defaults_witness :
    (getTokenMetadata "0xzzz" "base" envW).1 = .ok none ∧
    ∃ md, (getTokenMetadata "0xaaa" "base" envW).1 = .ok (some md) := by
  have h := metadata_defaults envW "0xzzz" "base" _ "testkey" rfl rfl (by decide)
  have h2 := metadata_defaults envW "0xaaa" "base" _ "testkey" rfl rfl (by decide)
  constructor
  · exact h.1 true "x" (by decide)
  · obtain ⟨md, hmd, _⟩ := h2.2.2.2 true 200 metaBodyW (by decide) rfl
    exact ⟨md, hmd⟩

end Alchemy
